import Mathlib

/-!
Verification of the ingestion core of `main.py` (zoom-analysis): delimiter
detection, header/layout detection, per-row aggregation into a count table
keyed by (target IP, port) and integer second, and series densification.

The embedding models:
  * a CSV input as a `List Row` where `Row = List String` (the fields that the
    `csv` reader yields for one line);
  * the raw text seen by `_detect_delimiter` as an `Option (List String)` of
    lines without their trailing newline (`none` models an unreadable source,
    i.e. the `OSError` branch);
  * Python string helpers `strip` / `lower` / `isalpha` / `isdigit` at the
    character-list level (ASCII, which covers every string this program
    compares against);
  * Python `float(...)` / `int(...)` on the decimal numerals this program
    consumes as exact parsers (`none` = `ValueError`); a parsed float is kept
    as the pair `Dec` of a signed integer numerator and a power-of-ten
    exponent whose exact value is `Dec.val : ℚ`, and `math.floor` on it is
    `Dec.floor`, proved below to coincide with `⌊Dec.val⌋`; the exotic
    `float` spellings (exponent notation, `inf`, `nan`) play no role in any
    property considered here;
  * `counts[key][sec] += 1` on `defaultdict`s as insert-or-increment on
    insertion-ordered association lists;
  * `row[i]` under `except IndexError` as `List.get?`.
-/

set_option autoImplicit false

namespace ZoomAnalysis

abbrev Row := List String

abbrev Key := String × Int

/-- The column mapping `(t_idx, sip_idx, sport_idx, dip_idx, dport_idx)`. -/
abbrev Mapping := Nat × Nat × Nat × Nat × Nat

/-- Per-key dict `second → count`, in insertion order. -/
abbrev SecCounts := List (Int × Nat)

/-- The Count Table: dict `key → (second → count)`, in insertion order. -/
abbrev Counts := List (Key × SecCounts)

/-- Python `s.strip()` at the character level. -/
def trimChars (l : List Char) : List Char :=
  ((l.dropWhile Char.isWhitespace).reverse.dropWhile Char.isWhitespace).reverse

/-- Python `s.strip()`. -/
def pyStrip (s : String) : String := String.mk (trimChars s.data)

/-- Python `c.lower()` for a single ASCII character. -/
def lowerChar (c : Char) : Char :=
  if 65 ≤ c.toNat ∧ c.toNat ≤ 90 then Char.ofNat (c.toNat + 32) else c

/-- Python `s.lower()`. -/
def pyLower (s : String) : String := String.mk (s.data.map lowerChar)

def natOfDigits (l : List Char) : Nat :=
  l.foldl (fun n c => 10 * n + (c.toNat - 48)) 0

/-- Value of a nonempty all-digit character list, else `none`. -/
def digitsVal? (l : List Char) : Option Nat :=
  if l ≠ [] ∧ l.all Char.isDigit then some (natOfDigits l) else none

/-- Embedding of Python `int(s)` on the strings this program feeds it:
strip, optional sign, nonempty digit run. -/
def pyInt? (s : String) : Option Int :=
  match (pyStrip s).data with
  | '-' :: rest => (digitsVal? rest).map (fun n => -(n : Int))
  | '+' :: rest => (digitsVal? rest).map (fun n => (n : Int))
  | l => (digitsVal? l).map (fun n => (n : Int))

/-- A parsed decimal numeral: the exact value is `num / 10 ^ exp`. -/
structure Dec where
  num : Int
  exp : Nat
deriving DecidableEq

/-- The exact rational value of a parsed numeral. -/
def Dec.val (d : Dec) : ℚ := (d.num : ℚ) / ((10 ^ d.exp : ℕ) : ℚ)

/-- Embedding of `int(math.floor(t))`: floor of the numeral's value. Integer division by
a positive power of ten rounds toward negative infinity. -/
def Dec.floor (d : Dec) : ℤ := d.num / ((10 ^ d.exp : ℕ) : ℤ)

/-- Unsigned decimal numeral `digits`, `digits.digits`, `digits.` or
`.digits`: numerator and power-of-ten exponent. -/
def pyFloatBody? (l : List Char) : Option (Nat × Nat) :=
  let ip := l.takeWhile Char.isDigit
  match l.dropWhile Char.isDigit with
  | [] => if ip = [] then none else some (natOfDigits ip, 0)
  | '.' :: fr =>
      let fp := fr.takeWhile Char.isDigit
      if fr.dropWhile Char.isDigit = [] then
        if ip = [] ∧ fp = [] then none
        else some (natOfDigits (ip ++ fp), fp.length)
      else none
  | _ => none

/-- Embedding of Python `float(s)` on decimal numerals: strip, optional
sign, then an unsigned decimal body. -/
def pyFloat? (s : String) : Option Dec :=
  match (pyStrip s).data with
  | '-' :: rest => (pyFloatBody? rest).map (fun p => ⟨-(p.1 : Int), p.2⟩)
  | '+' :: rest => (pyFloatBody? rest).map (fun p => ⟨(p.1 : Int), p.2⟩)
  | l => (pyFloatBody? l).map (fun p => ⟨(p.1 : Int), p.2⟩)

/-- Occurrences of character `c` in `s` (Python `line.count(c)`). -/
def countChar (s : String) (c : Char) : Nat := s.data.count c

/-- The loop body of `_detect_delimiter`, over the (at most 50) lines the
`for _ in range(50)` loop reads: skip whitespace-only lines, decide on the
first line where a tab or comma occurs, default to comma. -/
def detectScan : List String → String
  | [] => ","
  | l :: rest =>
      if trimChars l.data = [] then detectScan rest
      else
        if countChar l '\t' ≠ 0 ∨ countChar l ',' ≠ 0 then
          (if countChar l ',' ≤ countChar l '\t' then ("\t") else (","))
        else detectScan rest

/-- Embedding of `_detect_delimiter`. `none` models the `OSError` branch
(unreadable input); `some lines` is the file content, one string per line
(newline stripped). The Python loop runs at most 50 iterations and each
iteration consumes one `readline`, hence `take 50`. -/
def _detect_delimiter (file? : Option (List String)) : String :=
  match file? with
  | none => ","
  | some lines => detectScan (lines.take 50)

/-- First index of `name` in `h`, if present (Python
`header.index(name)` guarded by `name in header`). -/
def idxOf? (h : List String) (name : String) : Option Nat :=
  match h with
  | [] => none
  | x :: rest => if x = name then some 0 else (idxOf? rest name).map (fun i => i + 1)

/-- Embedding of the inner `find(cands)` of `parse_csv`: first alias of
`cands` present in the header, returning its first index. -/
def find (h : List String) : List String → Option Nat
  | [] => none
  | name :: rest =>
      match idxOf? h name with
      | some i => some i
      | none => find h rest

def tAliases : List String := ["frame.time_epoch", "time_epoch", "time", "timestamp"]

def sipAliases : List String := ["ip.src", "src_ip", "source_ip"]

def sportAliases : List String := ["udp.srcport", "tcp.srcport", "src_port", "sport", "source_port"]

def dipAliases : List String := ["ip.dst", "dst_ip", "destination_ip"]

def dportAliases : List String := ["udp.dstport", "tcp.dstport", "dst_port", "dport", "destination_port"]

/-- Embedding of `[c.strip().lower() for c in row]`. -/
def normalizeHeader (row : Row) : List String := row.map (fun c => pyLower (pyStrip c))

/-- Mapping resolved from a header row: each of the five fields by its alias
list, or the natural order `(0,1,2,3,4)` for all five if any is missing. -/
def headerMapping (row : Row) : Mapping :=
  let h := normalizeHeader row
  match find h tAliases, find h sipAliases, find h sportAliases,
        find h dipAliases, find h dportAliases with
  | some it, some isip, some isport, some idip, some idport =>
      (it, isip, isport, idip, idport)
  | _, _, _, _, _ => (0, 1, 2, 3, 4)

/-- Embedding of `looks_like_ip`: the trimmed string contains a `.` and at
least one digit. -/
def looks_like_ip (s : String) : Bool :=
  let t := trimChars s.data
  t.any (fun c => c = '.') && t.any Char.isDigit

/-- A row is classified as a header when any field contains an alphabetic
character. -/
def hasAlpha (row : Row) : Bool := row.any (fun cell => cell.data.any Char.isAlpha)

/-- Default-0 lookup, `counts_for_key.get(s, 0)`. -/
def lookupSec (m : SecCounts) (s : Int) : Nat :=
  match m with
  | [] => 0
  | (x, c) :: rest => if x = s then c else lookupSec rest s

/-- Embedding of `d[s] += 1` on a `defaultdict(int)`: increment in place, or append a
fresh entry with count 1. -/
def bumpSec (m : SecCounts) (s : Int) : SecCounts :=
  match m with
  | [] => [(s, 1)]
  | (x, c) :: rest => if x = s then (x, c + 1) :: rest else (x, c) :: bumpSec rest s

/-- Embedding of `counts[key][sec] += 1` on the outer `defaultdict`. -/
def bumpCounts (cs : Counts) (k : Key) (s : Int) : Counts :=
  match cs with
  | [] => [(k, [(s, 1)])]
  | (x, m) :: rest =>
      if x = k then (x, bumpSec m s) :: rest else (x, m) :: bumpCounts rest k s

/-- Header/layout decision state: `header is None` vs. a fixed mapping. -/
inductive HeaderState where
  | undecided
  | decided (m : Mapping)
deriving DecidableEq

/-- Loop state of `parse_csv`: count table, running min/max second
(`none` before the first accepted row), and the layout decision. -/
structure St where
  counts : Counts
  minSec : Option Int
  maxSec : Option Int
  hs : HeaderState
deriving DecidableEq

/-- The try block of `parse_csv`: extract and type the five fields through
the mapping; any `IndexError` (out-of-range index) or `ValueError` (bad
numeral) yields `none`. -/
def parseData (m : Mapping) (row : Row) : Option (Dec × String × Int × String × Int) :=
  match m with
  | (it, isip, isport, idip, idport) =>
      match row.get? it, row.get? isip, row.get? isport, row.get? idip, row.get? idport with
      | some tS, some sipS, some sportS, some dipS, some dportS =>
          match pyFloat? tS, pyInt? sportS, pyInt? dportS with
          | some t, some sport, some dport =>
              some (t, pyStrip sipS, sport, pyStrip dipS, dport)
          | _, _, _ => none
      | _, _, _, _, _ => none

/-- Accept one row: bump the count table at `(key, sec)` and update the
running min/max. -/
def bumpState (st : St) (k : Key) (sec : Int) : St :=
  { st with
    counts := bumpCounts st.counts k sec
    minSec := some (match st.minSec with | none => sec | some m0 => min m0 sec)
    maxSec := some (match st.maxSec with | none => sec | some m0 => max m0 sec) }

/-- Lines 94–119 of `main.py`: parse the row through the fixed mapping,
apply the endpoint filter (source match first), bucket by `floor t`. -/
def processData (target : String) (st : St) (m : Mapping) (row : Row) : St :=
  match parseData m row with
  | none => st
  | some (t, sip, sport, dip, dport) =>
      if sip = target then bumpState st (target, sport) t.floor
      else if dip = target then bumpState st (target, dport) t.floor
      else st

/-- One iteration of the `for row in reader` loop of `parse_csv`. -/
def step (target : String) (st : St) (row : Row) : St :=
  if row.length < 5 then st
  else
    match st.hs with
    | HeaderState.undecided =>
        if hasAlpha row then { st with hs := HeaderState.decided (headerMapping row) }
        else
          let m : Mapping :=
            if looks_like_ip (row.getD 1 ("")) then (0, 1, 2, 3, 4) else (0, 3, 1, 4, 2)
          processData target { st with hs := HeaderState.decided m } m row
    | HeaderState.decided m => processData target st m row

def initSt : St := ⟨[], none, none, HeaderState.undecided⟩

/-- Return value of `parse_csv`. -/
structure ParseResult where
  counts : Counts
  minSec : Int
  maxSec : Int
deriving DecidableEq

/-- Embedding of `parse_csv`: fold the per-row step over all rows, then
replace a never-set range by the sentinel `(0, 0)`. -/
def parse_csv (rows : List Row) (target : String) : ParseResult :=
  let st := rows.foldl (step target) initSt
  match st.minSec, st.maxSec with
  | some mn, some mx => ⟨st.counts, mn, mx⟩
  | _, _ => ⟨st.counts, 0, 0⟩

/-- Embedding of `list(range(a, b + 1))` over integers. -/
def intRange (a b : Int) : List Int :=
  (List.range (b + 1 - a).toNat).map (fun (i : Nat) => a + (i : Int))

/-- Embedding of `build_series`. -/
def build_series (countsForKey : SecCounts) (minSec maxSec : Int) :
    List Int × List Nat :=
  let xs := intRange minSec maxSec
  (xs, xs.map (fun s => lookupSec countsForKey s))

/-- Invariant of the `parse_csv` loop state: per-key second lists have
distinct seconds; the table is empty iff no row was accepted; min and max
are set together, are ordered, bound every stored second, and are both
attained by some stored second. -/
structure StInv (st : St) : Prop where
  nodup : ∀ p ∈ st.counts, (p.2.map Prod.fst).Nodup
  empty_iff : st.counts = [] ↔ st.minSec = none
  none_iff : st.minSec = none ↔ st.maxSec = none
  le : ∀ mn mx, st.minSec = some mn → st.maxSec = some mx → mn ≤ mx
  bounds : ∀ mn mx, st.minSec = some mn → st.maxSec = some mx →
      ∀ p ∈ st.counts, ∀ x ∈ p.2.map Prod.fst, mn ≤ x ∧ x ≤ mx
  attainMin : ∀ mn, st.minSec = some mn → ∃ p ∈ st.counts, mn ∈ p.2.map Prod.fst
  attainMax : ∀ mx, st.maxSec = some mx → ∃ p ∈ st.counts, mx ∈ p.2.map Prod.fst

/-- The delimiter rule as claim C4 words it, for comparison with
`_detect_delimiter`: inspect up to 50 NON-empty lines (empty lines do not
count toward the cap of 50), deciding on the first inspected line where a
tab or a comma occurs. -/
def detectDelimiterClaim (file? : Option (List String)) : String :=
  match file? with
  | none => ","
  | some lines =>
      detectScan ((lines.filter (fun l => !(trimChars l.data).isEmpty)).take 50)

/-- The bucket `Dec.floor` (integer division by the positive power of ten) is the
mathematical floor of the numeral's rational value. -/
theorem Dec.floor_val (d : Dec) : d.floor = ⌊d.val⌋ :=
  (Rat.floor_intCast_div_natCast d.num (10 ^ d.exp)).symm

/-- C1: for a headerless input (first row with ≥ 5 fields and no alphabetic
character), the mapping is fixed by inspecting field index 1 of that row —
natural order `(0,1,2,3,4)` if it looks like an IP, else `(0,3,1,4,2)` —
and the whole pass behaves as if that mapping had been fixed from the
start, the first row included as data; on `100.0,1234,80,1.2.3.4,5.6.7.8`
with target `1.2.3.4` the Count Table gets key `("1.2.3.4", 1234)` with
count 1 at second 100. -/
theorem C1_headerless_layout (target : String) (r : Row) (rest : List Row)
    (hlen : 5 ≤ r.length) (halpha : hasAlpha r = false) :
    (r :: rest).foldl (step target) initSt =
      (r :: rest).foldl (step target)
        { initSt with hs := HeaderState.decided (if looks_like_ip (r.getD 1 ("")) then (0, 1, 2, 3, 4) else (0, 3, 1, 4, 2)) } ∧
    parse_csv [["100.0", "1234", "80", "1.2.3.4", "5.6.7.8"]] "1.2.3.4"
      = ⟨[(("1.2.3.4", 1234), [(100, 1)])], 100, 100⟩ := by
  have h5 : ¬ r.length < 5 := by omega
  refine ⟨?_, by decide⟩
  simp only [List.foldl_cons]
  congr 1
  simp [step, h5, halpha, initSt]

/-- Witness for C1 on the legacy-order row from the spec. -/
theorem C1_headerless_layout_witness :
    ([["100.0", "1234", "80", "1.2.3.4", "5.6.7.8"]].foldl (step ("1.2.3.4")) initSt =
      [["100.0", "1234", "80", "1.2.3.4", "5.6.7.8"]].foldl (step ("1.2.3.4"))
        { initSt with hs := HeaderState.decided (if looks_like_ip ((["100.0", "1234", "80", "1.2.3.4", "5.6.7.8"] : Row).getD 1 ("")) then (0, 1, 2, 3, 4) else (0, 3, 1, 4, 2)) }) ∧
    parse_csv [["100.0", "1234", "80", "1.2.3.4", "5.6.7.8"]] "1.2.3.4"
      = ⟨[(("1.2.3.4", 1234), [(100, 1)])], 100, 100⟩ :=
  C1_headerless_layout ("1.2.3.4") ["100.0", "1234", "80", "1.2.3.4", "5.6.7.8"] []
    (by decide) (by decide)

/-- C2: when the first eligible row is a header (some field has an
alphabetic character), it is consumed without producing data, and either
all five semantic fields resolve through their alias lists, or the mapping
for all five falls back to `(0,1,2,3,4)` — never a partial resolution.
The permuted tshark header resolves positionally correctly. -/
theorem C2_header_alias_all_or_nothing (target : String) (st : St) (r : Row)
    (hlen : 5 ≤ r.length) (halpha : hasAlpha r = true)
    (hund : st.hs = HeaderState.undecided) :
    step target st r = { st with hs := HeaderState.decided (headerMapping r) } ∧
    ((∃ it isip isport idip idport,
        find (normalizeHeader r) tAliases = some it ∧
        find (normalizeHeader r) sipAliases = some isip ∧
        find (normalizeHeader r) sportAliases = some isport ∧
        find (normalizeHeader r) dipAliases = some idip ∧
        find (normalizeHeader r) dportAliases = some idport ∧
        headerMapping r = (it, isip, isport, idip, idport)) ∨
      ((find (normalizeHeader r) tAliases = none ∨
        find (normalizeHeader r) sipAliases = none ∨
        find (normalizeHeader r) sportAliases = none ∨
        find (normalizeHeader r) dipAliases = none ∨
        find (normalizeHeader r) dportAliases = none) ∧
        headerMapping r = (0, 1, 2, 3, 4))) ∧
    headerMapping ["ip.src", "udp.srcport", "ip.dst", "udp.dstport", "frame.time_epoch"]
      = (4, 0, 1, 2, 3) := by
  obtain ⟨c, mn, mx, hs⟩ := st
  simp only at hund
  subst hund
  have h5 : ¬ r.length < 5 := by omega
  refine ⟨by simp [step, h5, halpha], ?_, by decide⟩
  rcases h1 : find (normalizeHeader r) tAliases with _ | it
  · exact Or.inr ⟨Or.inl rfl, by simp [headerMapping, h1]⟩
  rcases h2 : find (normalizeHeader r) sipAliases with _ | isip
  · exact Or.inr ⟨Or.inr (Or.inl rfl), by simp [headerMapping, h1, h2]⟩
  rcases h3 : find (normalizeHeader r) sportAliases with _ | isport
  · exact Or.inr ⟨Or.inr (Or.inr (Or.inl rfl)), by simp [headerMapping, h1, h2, h3]⟩
  rcases h4 : find (normalizeHeader r) dipAliases with _ | idip
  · exact Or.inr ⟨Or.inr (Or.inr (Or.inr (Or.inl rfl))), by simp [headerMapping, h1, h2, h3, h4]⟩
  rcases h6 : find (normalizeHeader r) dportAliases with _ | idport
  · exact Or.inr ⟨Or.inr (Or.inr (Or.inr (Or.inr rfl))),
      by simp [headerMapping, h1, h2, h3, h4, h6]⟩
  exact Or.inl ⟨it, isip, isport, idip, idport, rfl, rfl, rfl, rfl, rfl,
    by simp [headerMapping, h1, h2, h3, h4, h6]⟩

/-- Witness for C2 on the permuted tshark header row. -/
theorem C2_header_alias_all_or_nothing_witness :
    step ("1.2.3.4") initSt ["ip.src", "udp.srcport", "ip.dst", "udp.dstport", "frame.time_epoch"]
      = { initSt with hs := HeaderState.decided (headerMapping ["ip.src", "udp.srcport", "ip.dst", "udp.dstport", "frame.time_epoch"]) } ∧
    headerMapping ["ip.src", "udp.srcport", "ip.dst", "udp.dstport", "frame.time_epoch"]
      = (4, 0, 1, 2, 3) := by
  have h := C2_header_alias_all_or_nothing ("1.2.3.4") initSt
    ["ip.src", "udp.srcport", "ip.dst", "udp.dstport", "frame.time_epoch"]
    (by decide) (by decide) rfl
  exact ⟨h.1, h.2.2⟩

/-- C3: under a fixed mapping, an accepted row resolves its Endpoint Key by
checking the source IP first — `(target, sport)` when `sip = target`,
else `(target, dport)` when `dip = target`, else no contribution; a row
with `sip = dip = target` and `sport ≠ dport` keys on `sport`. -/
theorem C3_endpoint_filter (target : String) (st : St) (m : Mapping) (r : Row)
    (t : Dec) (sip : String) (sport : Int) (dip : String) (dport : Int)
    (h : parseData m r = some (t, sip, sport, dip, dport)) :
    (sip = target → processData target st m r = bumpState st (target, sport) t.floor) ∧
    (sip ≠ target → dip = target → processData target st m r = bumpState st (target, dport) t.floor) ∧
    (sip ≠ target → dip ≠ target → processData target st m r = st) ∧
    parse_csv [["100.0", "1.2.3.4", "1234", "1.2.3.4", "80"]] "1.2.3.4"
      = ⟨[(("1.2.3.4", 1234), [(100, 1)])], 100, 100⟩ := by
  refine ⟨fun h1 => ?_, fun h1 h2 => ?_, fun h1 h2 => ?_, by decide⟩
  · simp [processData, h, h1]
  · simp [processData, h, h1, h2]
  · simp [processData, h, h1, h2]

/-- Witness for C3: the crafted row where source and destination IP both
equal the target and the ports differ; the key uses the source port. -/
theorem C3_endpoint_filter_witness :
    (("1.2.3.4" : String) = "1.2.3.4" →
      processData ("1.2.3.4") initSt (0, 1, 2, 3, 4) ["100.0", "1.2.3.4", "1234", "1.2.3.4", "80"]
        = bumpState initSt ("1.2.3.4", 1234) (Dec.floor ⟨1000, 1⟩)) ∧
    parse_csv [["100.0", "1.2.3.4", "1234", "1.2.3.4", "80"]] "1.2.3.4"
      = ⟨[(("1.2.3.4", 1234), [(100, 1)])], 100, 100⟩ := by
  have h := C3_endpoint_filter ("1.2.3.4") initSt (0, 1, 2, 3, 4)
    ["100.0", "1.2.3.4", "1234", "1.2.3.4", "80"]
    ⟨1000, 1⟩ ("1.2.3.4") 1234 ("1.2.3.4") 80 (by decide)
  exact ⟨h.1, h.2.2.2⟩

/-- C8: an accepted row is bucketed at `⌊t⌋`, the floor (toward negative
infinity) of the exact value of the parsed timestamp; in particular a row
with timestamp `-0.5` lands in second `-1`. -/
theorem C8_floor_bucket (target : String) (st : St) (m : Mapping) (r : Row)
    (t : Dec) (sip : String) (sport : Int) (dip : String) (dport : Int)
    (h : parseData m r = some (t, sip, sport, dip, dport)) (hsip : sip = target) :
    processData target st m r = bumpState st (target, sport) ⌊t.val⌋ ∧
    t.floor = ⌊t.val⌋ ∧
    ((⌊t.val⌋ : ℚ) ≤ t.val ∧ t.val < ⌊t.val⌋ + 1) ∧
    parse_csv [["-0.5", "1.2.3.4", "1234", "5.6.7.8", "80"]] "1.2.3.4"
      = ⟨[(("1.2.3.4", 1234), [(-1, 1)])], -1, -1⟩ := by
  refine ⟨?_, Dec.floor_val t, ⟨Int.floor_le _, Int.lt_floor_add_one _⟩, by decide⟩
  rw [← Dec.floor_val]
  simp [processData, h, hsip]

/-- Witness for C8 on the `-0.5` timestamp row. -/
theorem C8_floor_bucket_witness :
    processData ("1.2.3.4") initSt (0, 1, 2, 3, 4) ["-0.5", "1.2.3.4", "1234", "5.6.7.8", "80"]
      = bumpState initSt ("1.2.3.4", 1234) ⌊Dec.val ⟨-5, 1⟩⌋ ∧
    Dec.floor ⟨-5, 1⟩ = ⌊Dec.val ⟨-5, 1⟩⌋ ∧
    parse_csv [["-0.5", "1.2.3.4", "1234", "5.6.7.8", "80"]] "1.2.3.4"
      = ⟨[(("1.2.3.4", 1234), [(-1, 1)])], -1, -1⟩ := by
  have h := C8_floor_bucket ("1.2.3.4") initSt (0, 1, 2, 3, 4)
    ["-0.5", "1.2.3.4", "1234", "5.6.7.8", "80"]
    ⟨-5, 1⟩ ("1.2.3.4") 1234 ("5.6.7.8") 80 (by decide) rfl
  exact ⟨h.1, h.2.1, h.2.2.2⟩

/-- A mapping index out of range for the row makes the typed extraction
fail as a whole. -/
lemma parseData_oob (m : Mapping) (r : Row)
    (hoob : r.length ≤ m.1 ∨ r.length ≤ m.2.1 ∨ r.length ≤ m.2.2.1 ∨
            r.length ≤ m.2.2.2.1 ∨ r.length ≤ m.2.2.2.2) :
    parseData m r = none := by
  obtain ⟨a, b, c, d, e⟩ := m
  simp only at hoob
  rcases hg1 : r[a]? with _ | v1
  · simp [parseData, hg1]
  rcases hg2 : r[b]? with _ | v2
  · simp [parseData, hg1, hg2]
  rcases hg3 : r[c]? with _ | v3
  · simp [parseData, hg1, hg2, hg3]
  rcases hg4 : r[d]? with _ | v4
  · simp [parseData, hg1, hg2, hg3, hg4]
  rcases hg5 : r[e]? with _ | v5
  · simp [parseData, hg1, hg2, hg3, hg4, hg5]
  exfalso
  have l1 := (List.getElem?_eq_some.mp hg1).1
  have l2 := (List.getElem?_eq_some.mp hg2).1
  have l3 := (List.getElem?_eq_some.mp hg3).1
  have l4 := (List.getElem?_eq_some.mp hg4).1
  have l5 := (List.getElem?_eq_some.mp hg5).1
  omega

/-- C6: a malformed row — fewer than 5 fields, or failing the typed
extraction under the decided mapping — leaves the Count Table and the
Observed Range exactly as they were, and the pass continues with the next
row; concretely, appending a bad-timestamp row, a bad-port row and a
2-field row to a good row changes nothing in the result. -/
theorem C6_malformed_discard (target : String) (st : St) (r : Row)
    (h : r.length < 5 ∨ ∃ m, st.hs = HeaderState.decided m ∧ parseData m r = none) :
    (step target st r).counts = st.counts ∧
    (step target st r).minSec = st.minSec ∧
    (step target st r).maxSec = st.maxSec ∧
    parse_csv [["100.0", "1.2.3.4", "1234", "5.6.7.8", "80"],
               ["abc", "1.2.3.4", "99", "5.6.7.8", "80"],
               ["100.0", "1.2.3.4", "9.9", "5.6.7.8", "80"],
               ["100.0", "1.2.3.4"]] "1.2.3.4"
      = parse_csv [["100.0", "1.2.3.4", "1234", "5.6.7.8", "80"]] "1.2.3.4" := by
  obtain ⟨cs, mn, mx, hs⟩ := st
  rcases h with h | ⟨m, hdec, hnone⟩
  · refine ⟨?_, ?_, ?_, by decide⟩ <;> simp [step, h]
  · simp only at hdec
    subst hdec
    by_cases h5 : r.length < 5
    · refine ⟨?_, ?_, ?_, by decide⟩ <;> simp [step, h5]
    · refine ⟨?_, ?_, ?_, by decide⟩ <;> simp [step, h5, processData, hnone]

/-- Witness for C6 on a 2-field row. -/
theorem C6_malformed_discard_witness :
    (step ("1.2.3.4") initSt ["100.0", "1.2.3.4"]).counts = initSt.counts ∧
    (step ("1.2.3.4") initSt ["100.0", "1.2.3.4"]).minSec = initSt.minSec ∧
    (step ("1.2.3.4") initSt ["100.0", "1.2.3.4"]).maxSec = initSt.maxSec ∧
    parse_csv [["100.0", "1.2.3.4", "1234", "5.6.7.8", "80"],
               ["abc", "1.2.3.4", "99", "5.6.7.8", "80"],
               ["100.0", "1.2.3.4", "9.9", "5.6.7.8", "80"],
               ["100.0", "1.2.3.4"]] "1.2.3.4"
      = parse_csv [["100.0", "1.2.3.4", "1234", "5.6.7.8", "80"]] "1.2.3.4" :=
  C6_malformed_discard ("1.2.3.4") initSt ["100.0", "1.2.3.4"] (Or.inl (by decide))

/-- C10: row processing is total even when the fixed mapping holds an index
that is out of range for a row with ≥ 5 fields: `row[i]` is modelled by
`List.get?` (the caught `IndexError`), the extraction yields `none`, and
the row is silently discarded; a 6-column header whose resolved mapping
points past the end of a 5-field data row drops that row, never raising. -/
theorem C10_oob_index_discard (target : String) (st : St) (m : Mapping) (r : Row)
    (hdec : st.hs = HeaderState.decided m) (hlen : 5 ≤ r.length)
    (hoob : r.length ≤ m.1 ∨ r.length ≤ m.2.1 ∨ r.length ≤ m.2.2.1 ∨
            r.length ≤ m.2.2.2.1 ∨ r.length ≤ m.2.2.2.2) :
    step target st r = st ∧
    parse_csv [["frame.time_epoch", "ip.src", "udp.srcport", "ip.dst", "x", "udp.dstport"],
               ["100.0", "1.2.3.4", "1234", "5.6.7.8", "80"]] "1.2.3.4"
      = ⟨[], 0, 0⟩ := by
  obtain ⟨cs, mn, mx, hs⟩ := st
  simp only at hdec
  subst hdec
  have h5 : ¬ r.length < 5 := by omega
  exact ⟨by simp [step, h5, processData, parseData_oob m r hoob], by decide⟩

/-- Witness for C10: a mapping reaching index 5 on a 5-field row. -/
theorem C10_oob_index_discard_witness :
    step ("1.2.3.4") { initSt with hs := HeaderState.decided (0, 1, 2, 3, 5) }
        ["100.0", "1.2.3.4", "1234", "5.6.7.8", "80"]
      = { initSt with hs := HeaderState.decided (0, 1, 2, 3, 5) } ∧
    parse_csv [["frame.time_epoch", "ip.src", "udp.srcport", "ip.dst", "x", "udp.dstport"],
               ["100.0", "1.2.3.4", "1234", "5.6.7.8", "80"]] "1.2.3.4"
      = ⟨[], 0, 0⟩ :=
  C10_oob_index_discard ("1.2.3.4") { initSt with hs := HeaderState.decided (0, 1, 2, 3, 5) }
    (0, 1, 2, 3, 5) ["100.0", "1.2.3.4", "1234", "5.6.7.8", "80"] rfl (by decide)
    (Or.inr (Or.inr (Or.inr (Or.inr (by decide)))))

lemma bumpCounts_ne_nil (cs : Counts) (k : Key) (s : Int) : bumpCounts cs k s ≠ [] := by
  cases cs with
  | nil => simp [bumpCounts]
  | cons p rest =>
      obtain ⟨x, m⟩ := p
      by_cases h : x = k <;> simp [bumpCounts, h]

/-- Bumping a second either keeps the key set (in-place increment) or
appends the new second at the end. -/
lemma bumpSec_keys (m : SecCounts) (s : Int) :
    (bumpSec m s).map Prod.fst =
      if s ∈ m.map Prod.fst then m.map Prod.fst else m.map Prod.fst ++ [s] := by
  induction m with
  | nil => simp [bumpSec]
  | cons p rest ih =>
      obtain ⟨x, c⟩ := p
      by_cases h : x = s
      · simp [bumpSec, h]
      · have hxs : ¬ s = x := fun hh => h hh.symm
        by_cases hs : s ∈ rest.map Prod.fst <;>
          simp [bumpSec, h, ih, hs, hxs]

lemma mem_keys_bumpSec {m : SecCounts} {s x : Int}
    (h : x ∈ (bumpSec m s).map Prod.fst) : x = s ∨ x ∈ m.map Prod.fst := by
  rw [bumpSec_keys] at h
  by_cases hs : s ∈ m.map Prod.fst
  · rw [if_pos hs] at h
    exact Or.inr h
  · rw [if_neg hs] at h
    rcases List.mem_append.mp h with h | h
    · exact Or.inr h
    · exact Or.inl (by simpa using h)

lemma keys_subset_bumpSec (m : SecCounts) (s : Int) {x : Int}
    (h : x ∈ m.map Prod.fst) : x ∈ (bumpSec m s).map Prod.fst := by
  rw [bumpSec_keys]
  by_cases hs : s ∈ m.map Prod.fst <;> simp [hs, h]

lemma self_mem_keys_bumpSec (m : SecCounts) (s : Int) :
    s ∈ (bumpSec m s).map Prod.fst := by
  rw [bumpSec_keys]
  by_cases hs : s ∈ m.map Prod.fst <;> simp [hs]

lemma keys_nodup_bumpSec {m : SecCounts} (s : Int)
    (h : (m.map Prod.fst).Nodup) : ((bumpSec m s).map Prod.fst).Nodup := by
  rw [bumpSec_keys]
  by_cases hs : s ∈ m.map Prod.fst
  · simpa [hs] using h
  · rw [if_neg hs]
    rw [List.nodup_append]
    exact ⟨h, List.nodup_singleton s, by simpa [List.disjoint_singleton] using hs⟩

/-- Every entry of a bumped table is an old entry, a second-bumped old
entry, or the fresh singleton entry for the bumped key. -/
lemma mem_bumpCounts {cs : Counts} {k : Key} {s : Int} {p : Key × SecCounts}
    (h : p ∈ bumpCounts cs k s) :
    (∃ m0, (p.1, m0) ∈ cs ∧ (p.2 = m0 ∨ p.2 = bumpSec m0 s)) ∨
      (p.1 = k ∧ p.2 = [(s, 1)]) := by
  obtain ⟨pk, pm⟩ := p
  induction cs with
  | nil =>
      simp only [bumpCounts, List.mem_singleton, Prod.mk.injEq] at h
      exact Or.inr ⟨h.1, h.2⟩
  | cons q rest ih =>
      obtain ⟨x, m⟩ := q
      by_cases hx : x = k
      · subst hx
        simp only [bumpCounts, if_pos rfl] at h
        rcases List.mem_cons.mp h with h | h
        · rw [Prod.mk.injEq] at h
          exact Or.inl ⟨m, by rw [h.1]; exact List.mem_cons_self _ _, Or.inr h.2⟩
        · exact Or.inl ⟨pm, List.mem_cons_of_mem _ h, Or.inl rfl⟩
      · simp only [bumpCounts, if_neg hx] at h
        rcases List.mem_cons.mp h with h | h
        · rw [Prod.mk.injEq] at h
          exact Or.inl ⟨m, by rw [h.1]; exact List.mem_cons_self _ _, Or.inl h.2⟩
        · rcases ih h with ⟨m0, hm0, hc⟩ | hk
          · exact Or.inl ⟨m0, List.mem_cons_of_mem _ hm0, hc⟩
          · exact Or.inr hk

/-- The bumped second is present in the bumped table. -/
lemma bumpCounts_attains (cs : Counts) (k : Key) (s : Int) :
    ∃ p ∈ bumpCounts cs k s, s ∈ p.2.map Prod.fst := by
  induction cs with
  | nil => exact ⟨(k, [(s, 1)]), by simp [bumpCounts], by simp⟩
  | cons q rest ih =>
      obtain ⟨x, m⟩ := q
      by_cases hx : x = k
      · subst hx
        exact ⟨(x, bumpSec m s), by simp [bumpCounts], self_mem_keys_bumpSec m s⟩
      · rcases ih with ⟨p, hp, hps⟩
        exact ⟨p, by simp [bumpCounts, hx, hp], hps⟩

/-- Every second present before a bump is still present (under the same
key) after the bump. -/
lemma bumpCounts_preserves {cs : Counts} (k : Key) (s : Int)
    {p : Key × SecCounts} (hp : p ∈ cs) :
    ∃ p2 ∈ bumpCounts cs k s, p2.1 = p.1 ∧
      ∀ x ∈ p.2.map Prod.fst, x ∈ p2.2.map Prod.fst := by
  obtain ⟨pk, pm⟩ := p
  induction cs with
  | nil => cases hp
  | cons q rest ih =>
      obtain ⟨x0, m⟩ := q
      by_cases hx : x0 = k
      · subst hx
        rcases List.mem_cons.mp hp with h | h
        · rw [Prod.mk.injEq] at h
          refine ⟨(x0, bumpSec m s), by simp [bumpCounts], by simp [h.1], ?_⟩
          intro x hx2
          exact keys_subset_bumpSec m s (h.2 ▸ hx2)
        · exact ⟨(pk, pm), by simp [bumpCounts, List.mem_cons_of_mem _ h],
            rfl, fun x hx2 => hx2⟩
      · rcases List.mem_cons.mp hp with h | h
        · rw [Prod.mk.injEq] at h
          exact ⟨(x0, m), by simp [bumpCounts, hx], by simp [h.1],
            fun x hx2 => h.2 ▸ hx2⟩
        · rcases ih h with ⟨p2, hp2, he, hsub⟩
          exact ⟨p2, by simp [bumpCounts, hx, hp2], he, hsub⟩

lemma stInv_bumpState {st : St} (h : StInv st) (k : Key) (sec : Int) :
    StInv (bumpState st k sec) := by
  obtain ⟨cs, mn?, mx?, hs⟩ := st
  cases mn? with
  | none =>
      have hmx : mx? = none := h.none_iff.mp rfl
      subst hmx
      have hcs : cs = [] := h.empty_iff.mpr rfl
      subst hcs
      refine ⟨?_, ?_, ?_, ?_, ?_, ?_, ?_⟩
      · intro p hp
        simp only [bumpState, bumpCounts] at hp
        simp only [List.mem_singleton] at hp
        subst hp
        simp
      · simp [bumpState, bumpCounts]
      · simp [bumpState]
      · intro mn mx h1 h2
        simp only [bumpState] at h1 h2
        simp only [Option.some.injEq] at h1 h2
        omega
      · intro mn mx h1 h2 p hp x hx
        simp only [bumpState] at h1 h2 hp
        simp only [Option.some.injEq] at h1 h2
        simp only [bumpCounts, List.mem_singleton] at hp
        subst hp
        simp only [List.map_cons, List.map_nil, List.mem_singleton] at hx
        omega
      · intro mn h1
        simp only [bumpState] at h1
        simp only [Option.some.injEq] at h1
        exact ⟨(k, [(sec, 1)]), by simp [bumpState, bumpCounts], by simp [h1]⟩
      · intro mx h1
        simp only [bumpState] at h1
        simp only [Option.some.injEq] at h1
        exact ⟨(k, [(sec, 1)]), by simp [bumpState, bumpCounts], by simp [h1]⟩
  | some mn =>
      cases mx? with
      | none =>
          have h0 := h.none_iff.mpr rfl
          cases h0
      | some mx =>
          have hle : mn ≤ mx := h.le mn mx rfl rfl
          refine ⟨?_, ?_, ?_, ?_, ?_, ?_, ?_⟩
          · intro p hp
            simp only [bumpState] at hp
            rcases mem_bumpCounts hp with ⟨m0, hm0, hc | hc⟩ | ⟨_, hc⟩
            · rw [hc]
              exact h.nodup (p.1, m0) hm0
            · rw [hc]
              exact keys_nodup_bumpSec sec (h.nodup (p.1, m0) hm0)
            · rw [hc]
              simp
          · simp [bumpState, bumpCounts_ne_nil]
          · simp [bumpState]
          · intro a b h1 h2
            simp only [bumpState, Option.some.injEq] at h1 h2
            omega
          · intro a b h1 h2 p hp x hx
            simp only [bumpState, Option.some.injEq] at h1 h2 hp
            subst h1
            subst h2
            rcases mem_bumpCounts hp with ⟨m0, hm0, hc | hc⟩ | ⟨_, hc⟩
            · rw [hc] at hx
              have := h.bounds mn mx rfl rfl (p.1, m0) hm0 x hx
              omega
            · rw [hc] at hx
              rcases mem_keys_bumpSec hx with hxs | hxm
              · omega
              · have := h.bounds mn mx rfl rfl (p.1, m0) hm0 x hxm
                omega
            · rw [hc] at hx
              simp only [List.map_cons, List.map_nil, List.mem_singleton] at hx
              omega
          · intro a h1
            simp only [bumpState, Option.some.injEq] at h1
            subst h1
            rcases le_total mn sec with hc | hc
            · rcases h.attainMin mn rfl with ⟨p, hp, hpx⟩
              rcases bumpCounts_preserves k sec hp with ⟨p2, hp2, _, hsub⟩
              refine ⟨p2, by simpa [bumpState] using hp2, ?_⟩
              rw [min_eq_left hc]
              exact hsub mn hpx
            · rcases bumpCounts_attains cs k sec with ⟨p, hp, hpx⟩
              refine ⟨p, by simpa [bumpState] using hp, ?_⟩
              rw [min_eq_right hc]
              exact hpx
          · intro a h1
            simp only [bumpState, Option.some.injEq] at h1
            subst h1
            rcases le_total sec mx with hc | hc
            · rcases h.attainMax mx rfl with ⟨p, hp, hpx⟩
              rcases bumpCounts_preserves k sec hp with ⟨p2, hp2, _, hsub⟩
              refine ⟨p2, by simpa [bumpState] using hp2, ?_⟩
              rw [max_eq_left hc]
              exact hsub mx hpx
            · rcases bumpCounts_attains cs k sec with ⟨p, hp, hpx⟩
              refine ⟨p, by simpa [bumpState] using hp, ?_⟩
              rw [max_eq_right hc]
              exact hpx

lemma stInv_setHs {st : St} (h : StInv st) (x : HeaderState) : StInv { st with hs := x } :=
  ⟨h.nodup, h.empty_iff, h.none_iff, h.le, h.bounds, h.attainMin, h.attainMax⟩

lemma stInv_processData (target : String) {st : St} (h : StInv st)
    (m : Mapping) (r : Row) : StInv (processData target st m r) := by
  unfold processData
  split
  · exact h
  · split
    · exact stInv_bumpState h _ _
    · split
      · exact stInv_bumpState h _ _
      · exact h

lemma stInv_step (target : String) {st : St} (h : StInv st) (r : Row) :
    StInv (step target st r) := by
  unfold step
  split
  · exact h
  · split
    · split
      · exact stInv_setHs h _
      · exact stInv_processData target (stInv_setHs h _) _ _
    · exact stInv_processData target h _ _

lemma stInv_init : StInv initSt := by
  refine ⟨?_, ?_, ?_, ?_, ?_, ?_, ?_⟩ <;> simp [initSt]

lemma stInv_foldl (target : String) (rows : List Row) :
    StInv (rows.foldl (step target) initSt) := by
  have main : ∀ (l : List Row) (st : St), StInv st → StInv (l.foldl (step target) st) := by
    intro l
    induction l with
    | nil => exact fun st h => h
    | cons r rest ih => exact fun st h => ih _ (stInv_step target h r)
  exact main rows initSt stInv_init

lemma parse_csv_counts (rows : List Row) (target : String) :
    (parse_csv rows target).counts = (rows.foldl (step target) initSt).counts := by
  simp only [parse_csv]
  split <;> rfl

lemma parse_csv_of_some (rows : List Row) (target : String) (mn mx : Int)
    (h1 : (rows.foldl (step target) initSt).minSec = some mn)
    (h2 : (rows.foldl (step target) initSt).maxSec = some mx) :
    parse_csv rows target = ⟨(rows.foldl (step target) initSt).counts, mn, mx⟩ := by
  simp only [parse_csv]
  rw [h1, h2]

lemma parse_csv_of_none (rows : List Row) (target : String)
    (h1 : (rows.foldl (step target) initSt).minSec = none) :
    parse_csv rows target = ⟨[], 0, 0⟩ := by
  have hinv := stInv_foldl target rows
  have hcs : (rows.foldl (step target) initSt).counts = [] := hinv.empty_iff.mpr h1
  simp only [parse_csv]
  rw [h1, hcs]

lemma length_intRange (a b : Int) : (intRange a b).length = (b + 1 - a).toNat := by
  simp only [intRange, List.length_map, List.length_range]

lemma getElem?_intRange (a b : Int) (i : Nat) (h : i < (intRange a b).length) :
    (intRange a b)[i]? = some (a + i) := by
  rw [length_intRange] at h
  unfold intRange
  rw [List.getElem?_map, List.getElem?_range h]
  rfl

lemma getD_intRange (a b : Int) (i : Nat) (h : i < (intRange a b).length) :
    (intRange a b).getD i 0 = a + i := by
  rw [List.getD_eq_getElem?_getD, getElem?_intRange a b i h]
  rfl

lemma getD_map_intRange (m : SecCounts) (a b : Int) (i : Nat)
    (h : i < (intRange a b).length) :
    ((intRange a b).map (fun s => lookupSec m s)).getD i 0 = lookupSec m (a + i) := by
  rw [List.getD_eq_getElem?_getD, List.getElem?_map, getElem?_intRange a b i h]
  rfl

lemma mem_intRange {a b x : Int} : x ∈ intRange a b ↔ a ≤ x ∧ x ≤ b := by
  simp only [intRange, List.mem_map, List.mem_range]
  constructor
  · rintro ⟨i, hi, rfl⟩
    omega
  · intro hx
    exact ⟨(x - a).toNat, by omega, by omega⟩

lemma nodup_intRange (a b : Int) : (intRange a b).Nodup := by
  refine List.Nodup.map ?_ (List.nodup_range _)
  intro i j hij
  simp only at hij
  omega

lemma lookupSec_eq_zero {m : SecCounts} {s : Int} (h : s ∉ m.map Prod.fst) :
    lookupSec m s = 0 := by
  induction m with
  | nil => rfl
  | cons q rest ih =>
      obtain ⟨x, c⟩ := q
      simp only [List.map_cons, List.mem_cons, not_or] at h
      rw [lookupSec, if_neg (fun hh => h.1 hh.symm)]
      exact ih h.2

/-- Summing a pointwise-updated function over a duplicate-free list that
contains the updated point adds the new value once. -/
lemma sum_map_update (l : List Int) (hl : l.Nodup) (s0 : Int) (hs0 : s0 ∈ l)
    (c0 : Nat) (g : Int → Nat) (hg : g s0 = 0) :
    (l.map (fun s => if s0 = s then c0 else g s)).sum = c0 + (l.map g).sum := by
  induction l with
  | nil => cases hs0
  | cons a rest ih =>
      rcases List.mem_cons.mp hs0 with h | h
      · subst h
        have hrest : ∀ x ∈ rest, (fun s => if s0 = s then c0 else g s) x = g x := by
          intro x hx
          simp only
          rw [if_neg]
          intro hh
          rw [← hh] at hx
          exact (List.nodup_cons.mp hl).1 hx
        simp only [List.map_cons, List.sum_cons, List.map_congr_left hrest, hg]
        simp
      · have hne : ¬ s0 = a := by
          intro hh
          rw [hh] at h
          exact (List.nodup_cons.mp hl).1 h
        simp only [List.map_cons, List.sum_cons, if_neg hne]
        rw [ih (List.nodup_cons.mp hl).2 h]
        omega

/-- Summing the default-0 lookup of a duplicate-free association list over
a duplicate-free list containing all its keys recovers the sum of the
stored values. -/
lemma sum_map_lookupSec (m : SecCounts) (l : List Int) (hl : l.Nodup)
    (hk : (m.map Prod.fst).Nodup) (hsub : ∀ q ∈ m, q.1 ∈ l) :
    (l.map (fun s => lookupSec m s)).sum = (m.map Prod.snd).sum := by
  induction m with
  | nil =>
      simp only [List.map_nil, List.sum_nil]
      have : ∀ s ∈ l, lookupSec [] s = 0 := fun s _ => rfl
      rw [List.map_congr_left this]
      simp
  | cons q rest ih =>
      obtain ⟨x, c⟩ := q
      have hx : x ∈ l := hsub (x, c) (List.mem_cons_self _ _)
      have hk2 : x ∉ rest.map Prod.fst ∧ (rest.map Prod.fst).Nodup :=
        List.nodup_cons.mp (by simpa using hk)
      have hfun : ∀ s ∈ l, lookupSec ((x, c) :: rest) s
          = (fun s => if x = s then c else lookupSec rest s) s := fun s _ => rfl
      rw [List.map_congr_left hfun]
      rw [sum_map_update l hl x hx c (fun s => lookupSec rest s) (lookupSec_eq_zero hk2.1)]
      rw [ih hk2.2 (fun q2 hq2 => hsub q2 (List.mem_cons_of_mem _ hq2))]
      simp

/-- C7: if zero rows pass the endpoint filter (the running minimum was
never set), `parse_csv` returns the empty Count Table with the sentinel
range `(0, 0)` — an ordinary value, not an error (the embedding is a total
function); concretely, a row whose endpoints miss the target yields
exactly that result. -/
theorem C7_empty_result (rows : List Row) (target : String)
    (h : (rows.foldl (step target) initSt).minSec = none) :
    parse_csv rows target = ⟨[], 0, 0⟩ ∧
    parse_csv [["100.0", "9.9.9.9", "1", "8.8.8.8", "2"]] "1.2.3.4" = ⟨[], 0, 0⟩ :=
  ⟨parse_csv_of_none rows target h, by decide⟩

/-- Witness for C7 on a single non-matching row. -/
theorem C7_empty_result_witness :
    parse_csv [["100.0", "9.9.9.9", "1", "8.8.8.8", "2"]] "1.2.3.4" = ⟨[], 0, 0⟩ :=
  (C7_empty_result [["100.0", "9.9.9.9", "1", "8.8.8.8", "2"]] "1.2.3.4" (by decide)).1

/-- C9: the range returned by `parse_csv` always satisfies
`minSec ≤ maxSec`: both are 0 when the Count Table is empty, and otherwise
`minSec` is attained by a stored second, `maxSec` is attained by a stored
second, and every stored second lies between them — so the Series
Builder's empty-sequence case is unreachable on `parse_csv` outputs. -/
theorem C9_range_invariant (rows : List Row) (target : String) :
    (parse_csv rows target).minSec ≤ (parse_csv rows target).maxSec ∧
    ((parse_csv rows target).counts = [] →
      (parse_csv rows target).minSec = 0 ∧ (parse_csv rows target).maxSec = 0) ∧
    ((parse_csv rows target).counts ≠ [] →
      (∃ p ∈ (parse_csv rows target).counts,
        (parse_csv rows target).minSec ∈ p.2.map Prod.fst) ∧
      (∃ p ∈ (parse_csv rows target).counts,
        (parse_csv rows target).maxSec ∈ p.2.map Prod.fst) ∧
      (∀ p ∈ (parse_csv rows target).counts, ∀ x ∈ p.2.map Prod.fst,
        (parse_csv rows target).minSec ≤ x ∧ x ≤ (parse_csv rows target).maxSec)) := by
  have hinv := stInv_foldl target rows
  rcases hmn : (rows.foldl (step target) initSt).minSec with _ | mn
  · have heq := parse_csv_of_none rows target hmn
    rw [heq]
    exact ⟨le_refl 0, fun _ => ⟨rfl, rfl⟩, fun hne => absurd rfl hne⟩
  · rcases hmx : (rows.foldl (step target) initSt).maxSec with _ | mx
    · have h0 := hinv.none_iff.mpr hmx
      rw [hmn] at h0
      cases h0
    · have heq := parse_csv_of_some rows target mn mx hmn hmx
      rw [heq]
      have hne : (rows.foldl (step target) initSt).counts ≠ [] := by
        intro hc
        have h0 := hinv.empty_iff.mp hc
        rw [hmn] at h0
        cases h0
      exact ⟨hinv.le mn mx hmn hmx, fun hc => absurd hc hne,
        fun _ => ⟨hinv.attainMin mn hmn, hinv.attainMax mx hmx,
          hinv.bounds mn mx hmn hmx⟩⟩

/-- Witness for C9 on a single accepted row. -/
theorem C9_range_invariant_witness :
    (parse_csv [["100.0", "1.2.3.4", "1234", "5.6.7.8", "80"]] "1.2.3.4").minSec
      ≤ (parse_csv [["100.0", "1.2.3.4", "1234", "5.6.7.8", "80"]] "1.2.3.4").maxSec ∧
    (∃ p ∈ (parse_csv [["100.0", "1.2.3.4", "1234", "5.6.7.8", "80"]] "1.2.3.4").counts,
      (parse_csv [["100.0", "1.2.3.4", "1234", "5.6.7.8", "80"]] "1.2.3.4").minSec
        ∈ p.2.map Prod.fst) := by
  have h := C9_range_invariant [["100.0", "1.2.3.4", "1234", "5.6.7.8", "80"]] "1.2.3.4"
  exact ⟨h.1, (h.2.2 (by decide)).1⟩

/-- C5: for every key in the Count Table of a parse pass, the Series
Builder output over the returned range has `xs = minSec, …, maxSec` of
length `maxSec - minSec + 1`, `ys i` is the stored count at `xs i`
(0 when absent), the sum of `ys` equals the sum of the stored per-second
counts for that key, and for any range with `max < min` the sequence is
empty. -/
theorem C5_densification (rows : List Row) (target : String) (k : Key) (m : SecCounts)
    (hmem : (k, m) ∈ (parse_csv rows target).counts) :
    ((build_series m (parse_csv rows target).minSec (parse_csv rows target).maxSec).1.length : Int)
      = (parse_csv rows target).maxSec - (parse_csv rows target).minSec + 1 ∧
    (∀ i : Nat,
      i < (build_series m (parse_csv rows target).minSec (parse_csv rows target).maxSec).1.length →
      (build_series m (parse_csv rows target).minSec (parse_csv rows target).maxSec).1.getD i 0
        = (parse_csv rows target).minSec + i ∧
      (build_series m (parse_csv rows target).minSec (parse_csv rows target).maxSec).2.getD i 0
        = lookupSec m ((parse_csv rows target).minSec + i)) ∧
    (build_series m (parse_csv rows target).minSec (parse_csv rows target).maxSec).2.sum
      = (m.map Prod.snd).sum ∧
    (∀ a b : Int, b < a → (build_series m a b).1 = []) := by
  have hinv := stInv_foldl target rows
  have hcne : (rows.foldl (step target) initSt).counts ≠ [] := by
    rw [← parse_csv_counts]
    exact List.ne_nil_of_mem hmem
  rcases hmn : (rows.foldl (step target) initSt).minSec with _ | mn
  · exact absurd (hinv.empty_iff.mpr hmn) hcne
  rcases hmx : (rows.foldl (step target) initSt).maxSec with _ | mx
  · have h0 := hinv.none_iff.mpr hmx
    rw [hmn] at h0
    cases h0
  have heq := parse_csv_of_some rows target mn mx hmn hmx
  rw [heq] at hmem ⊢
  have hle : mn ≤ mx := hinv.le mn mx hmn hmx
  have hbounds := hinv.bounds mn mx hmn hmx (k, m) hmem
  have hnd : (m.map Prod.fst).Nodup := hinv.nodup (k, m) hmem
  refine ⟨?_, ?_, ?_, ?_⟩
  · show ((intRange mn mx).length : Int) = mx - mn + 1
    rw [length_intRange]
    omega
  · intro i hi
    have hi2 : i < (intRange mn mx).length := hi
    exact ⟨getD_intRange mn mx i hi2, getD_map_intRange m mn mx i hi2⟩
  · show ((intRange mn mx).map (fun s => lookupSec m s)).sum = (m.map Prod.snd).sum
    refine sum_map_lookupSec m (intRange mn mx) (nodup_intRange mn mx) hnd ?_
    intro q hq
    exact mem_intRange.mpr (hbounds q.1 (List.mem_map_of_mem Prod.fst hq))
  · intro a b hab
    show intRange a b = []
    unfold intRange
    rw [show (b + 1 - a).toNat = 0 by omega]
    rfl

/-- Witness for C5 on a single accepted row with key `("1.2.3.4", 1234)`. -/
theorem C5_densification_witness :
    ((build_series [((100 : Int), (1 : Nat))]
        (parse_csv [["100.0", "1.2.3.4", "1234", "5.6.7.8", "80"]] "1.2.3.4").minSec
        (parse_csv [["100.0", "1.2.3.4", "1234", "5.6.7.8", "80"]] "1.2.3.4").maxSec).1.length
      : Int)
      = (parse_csv [["100.0", "1.2.3.4", "1234", "5.6.7.8", "80"]] "1.2.3.4").maxSec
        - (parse_csv [["100.0", "1.2.3.4", "1234", "5.6.7.8", "80"]] "1.2.3.4").minSec + 1 ∧
    (build_series [((100 : Int), (1 : Nat))]
        (parse_csv [["100.0", "1.2.3.4", "1234", "5.6.7.8", "80"]] "1.2.3.4").minSec
        (parse_csv [["100.0", "1.2.3.4", "1234", "5.6.7.8", "80"]] "1.2.3.4").maxSec).2.sum
      = ([((100 : Int), (1 : Nat))].map Prod.snd).sum := by
  have h := C5_densification [["100.0", "1.2.3.4", "1234", "5.6.7.8", "80"]] "1.2.3.4"
    ("1.2.3.4", 1234) [(100, 1)] (by decide)
  exact ⟨h.1, h.2.2.1⟩

/-- The scan `detectScan` returns its tab-vs-comma verdict on the first line that is
non-blank after stripping and contains a tab or a comma, and defaults to
comma when no scanned line qualifies. -/
lemma detectScan_eq_find (l : List String) :
    detectScan l =
      (match l.find? (fun s => !(trimChars s.data).isEmpty
            && !(countChar s '\t' + countChar s ',' == 0)) with
       | some s => if countChar s ',' ≤ countChar s '\t' then ("\t") else (",")
       | none => ",") := by
  induction l with
  | nil => rfl
  | cons s rest ih =>
      by_cases hb : trimChars s.data = []
      · have hp : (!(trimChars s.data).isEmpty
            && !(countChar s '\t' + countChar s ',' == 0)) = false := by
          have : (trimChars s.data).isEmpty = true := by simp [List.isEmpty_iff, hb]
          rw [this]
          rfl
        rw [List.find?_cons_of_neg rest (by simp [hp]), ← ih]
        simp only [detectScan]
        rw [if_pos hb]
      · have hne : (trimChars s.data).isEmpty = false := by
          simp [List.isEmpty_iff, hb]
        by_cases hz : countChar s '\t' + countChar s ',' = 0
        · have hp : (!(trimChars s.data).isEmpty
              && !(countChar s '\t' + countChar s ',' == 0)) = false := by
            rw [hne]
            simp [hz]
          rw [List.find?_cons_of_neg rest (by simp [hp]), ← ih]
          simp only [detectScan]
          rw [if_neg hb, if_neg (by omega)]
        · have hp : (!(trimChars s.data).isEmpty
              && !(countChar s '\t' + countChar s ',' == 0)) = true := by
            rw [hne]
            simp [hz]
          rw [List.find?_cons_of_pos rest hp]
          simp only [detectScan]
          rw [if_neg hb, if_pos (by omega)]

/-- C4 counterexample: a file opening with 50 empty lines followed by a
tab-delimited line. The code's 50-iteration cap is consumed by the empty
lines, so `_detect_delimiter` returns COMMA, while the claim's rule (empty
lines do not count toward the cap) returns TAB on the same input. -/
theorem C4_delimiter_counterexample :
    _detect_delimiter (some (List.replicate 50 ("") ++ ["a\tb"])) = "," ∧
    detectDelimiterClaim (some (List.replicate 50 ("") ++ ["a\tb"])) = "\t" ∧
    ("," : String) ≠ "\t" :=
  ⟨by decide, by decide, by decide⟩

/-- C4 (amended): delimiter detection reads up to 50 lines from the start
of the input, empty lines included in the cap; it returns TAB if, on the
first read line that is non-blank and has a nonzero tab count or comma
count, the tab count is ≥ the comma count, and COMMA otherwise; if no read
line within the cap qualifies, or the input cannot be read, it returns
COMMA. -/
theorem C4_amended_delimiter (lines : List String) :
    _detect_delimiter none = "," ∧
    _detect_delimiter (some lines) =
      (match (lines.take 50).find? (fun s => !(trimChars s.data).isEmpty
            && !(countChar s '\t' + countChar s ',' == 0)) with
       | some s => if countChar s ',' ≤ countChar s '\t' then ("\t") else (",")
       | none => ",") :=
  ⟨rfl, detectScan_eq_find (lines.take 50)⟩

end ZoomAnalysis
